import Mathlib

/-!
# Sensory swipe game: particle simulation and gesture controller

A shallow embedding of `src/main.js`.

Modelling conventions.

* A JavaScript number is represented by the rational (`ℚ`) it denotes.  The arithmetic of
  class `Particle` (constructor and `update()`) is binary64: every result is rounded by
  `round64` (to nearest, ties to even), and a decimal literal `c` of that class denotes
  `round64 c`.  Overflow and `NaN` do not arise for the magnitudes these fields take and
  are not modelled.  The geometry of `addParticlesAlongLine` (distance, count,
  interpolation, jitter) is evaluated in exact arithmetic.  `Date.now()` is an integer
  number of milliseconds.
* `Math.random()` and `Date.now()` are inputs of the operation that calls them.  An
  operation that draws an unbounded number of random values receives a stream
  `Nat → ℚ` and reads it in the order in which the source performs the draws.
* `null` / `undefined` are `none`.  A `TypeError` raised by reading a property of `null`
  makes the operation return `none`.
* The DOM class lists of the two screens, the canvas and the audio elements are not part
  of the model; the inline style `gameScreen.style.background` is (field `background`).
-/

namespace SensorySwipe

/-! ## Data model -/

/-- The two values of the `GameState` table. -/
inductive GameState where
  | HOME
  | PLAYING
  deriving DecidableEq, Repr

/-- A pointer position `{x, y}` as produced by `getTouchPoint` / `getMousePoint`. -/
structure Point where
  x : ℚ
  y : ℚ
  deriving DecidableEq

/-- The fields assigned by the constructor of class `Particle`. -/
structure Particle where
  x : ℚ
  y : ℚ
  startX : ℚ
  startY : ℚ
  color : Option String
  style : Option String
  vx : ℚ
  vy : ℚ
  life : ℚ
  decay : ℚ
  size : ℚ
  originalSize : ℚ
  rotation : ℚ
  rotationSpeed : ℚ
  deriving DecidableEq

/-- The object literal stored in `currentTrail` by `startDrawing`. -/
structure Trail where
  points : List Point
  color : Option String
  style : Option String
  startTime : Int
  deriving DecidableEq

/-- The mutable fields of class `SensorySwipeGame` (canvas and audio handles left out),
together with the inline background style of the game screen. -/
structure SensorySwipeGame where
  currentState : GameState
  particles : List Particle
  trails : List Trail
  currentTrail : Option Trail
  isDrawing : Bool
  lastPoint : Option Point
  currentBgIndex : Nat
  background : Option String
  deriving DecidableEq

/-! ## Constants -/

/-- The value of `Math.PI`: the binary64 number nearest to π, as an exact rational. -/
def PI : ℚ := 884279719003555 / 281474976710656

/-- The palette `this.backgroundColors` of the constructor. -/
def backgroundColors : List String :=
  [ "linear-gradient(135deg, #667eea 0%, #764ba2 100%)",
    "linear-gradient(135deg, #f093fb 0%, #f5576c 100%)",
    "linear-gradient(135deg, #4facfe 0%, #00f2fe 100%)",
    "linear-gradient(135deg, #43e97b 0%, #38f9d7 100%)",
    "linear-gradient(135deg, #fa709a 0%, #fee140 100%)",
    "linear-gradient(135deg, #a8edea 0%, #fed6e3 100%)",
    "linear-gradient(135deg, #ff9a9e 0%, #fecfef 100%)",
    "linear-gradient(135deg, #c471f5 0%, #fa71cd 100%)" ]

/-- The list `this.particleStyles` of the constructor. -/
def particleStyles : List String := ["sparkles", "bubbles", "stars"]

/-- The local table `colors` of `getRandomColor`. -/
def colors : List String :=
  [ "#FF6B6B", "#4ECDC4", "#45B7D1", "#96CEB4", "#FFEAA7",
    "#DDA0DD", "#98D8C8", "#F06292", "#AED581", "#FFB74D",
    "#FF8A65", "#BA68C8", "#4FC3F7", "#81C784", "#FFD54F",
    "#F48FB1", "#80DEEA", "#C5E1A5", "#FFCC02", "#CE93D8" ]

/-- Array read `xs[Math.floor(r * xs.length)]`; an index outside the array reads
`undefined`. -/
def pick (xs : List String) (r : ℚ) : Option String :=
  let k : Int := ⌊r * (xs.length : ℚ)⌋
  if 0 ≤ k then xs[k.toNat]? else none

/-- `getRandomColor()`, with the value `r` of its `Math.random()` call. -/
def getRandomColor (r : ℚ) : Option String := pick colors r

/-- `getRandomParticleStyle()`, with the value `r` of its `Math.random()` call. -/
def getRandomParticleStyle (r : ℚ) : Option String := pick particleStyles r

/-! ## Binary64 rounding -/

/-- The integer nearest to `y`; a tie goes to the even neighbour. -/
def roundHalfEven (y : ℚ) : ℤ :=
  let f : ℤ := ⌊y⌋
  let r : ℚ := y - f
  if r < 1 / 2 then f
  else if 1 / 2 < r then f + 1
  else if f % 2 = 0 then f else f + 1

/-- The binary64 number nearest to `x` (ties to even): with `e = ⌊log₂ |x|⌋`, not below
the least normal exponent `-1022`, the result is the multiple of `2 ^ (e - 52)` nearest
to `x`.  This is the rounding that every binary64 operation of JavaScript applies to its
exact result, for results below the overflow threshold. -/
def round64 (x : ℚ) : ℚ :=
  if x = 0 then 0
  else
    let e : ℤ := max (Int.log 2 |x|) (-1022)
    (roundHalfEven (x / 2 ^ (e - 52)) : ℚ) * 2 ^ (e - 52)

/-! ## Particle -/

/-- The constructor `new Particle(x, y, color, style)`.  The six `Math.random()` calls of
the constructor read `rnd k`, ..., `rnd (k + 5)` in source order (`vx`, `vy`, `decay`,
`size`, `rotation`, `rotationSpeed`); every operation rounds to binary64. -/
def Particle.new (x y : ℚ) (color style : Option String) (rnd : Nat → ℚ) (k : Nat) :
    Particle :=
  { x := x
    y := y
    startX := x
    startY := y
    color := color
    style := style
    vx := round64 (round64 (rnd k - 0.5) * 2)
    vy := round64 (round64 (rnd (k + 1) - 0.5) * 2)
    life := 1.0
    decay := round64 (round64 0.02 + round64 (rnd (k + 2) * round64 0.02))
    size := round64 (2 + round64 (rnd (k + 3) * 4))
    originalSize := round64 (2 + round64 (rnd (k + 3) * 4))
    rotation := round64 (round64 (rnd (k + 4) * PI) * 2)
    rotationSpeed := round64 (round64 (rnd (k + 5) - 0.5) * round64 0.1) }

/-- The method `Particle.update()`: drift, friction, decay of `life`, size, rotation, in
the order of the source (the position uses the velocity before friction, the size uses
the life after the decay); every operation rounds to binary64. -/
def Particle.update (p : Particle) : Particle :=
  let x := round64 (p.x + p.vx)
  let y := round64 (p.y + p.vy)
  let vx := round64 (p.vx * round64 0.98)
  let vy := round64 (p.vy * round64 0.98)
  let life := round64 (p.life - p.decay)
  let size := round64 (p.originalSize * life)
  let rotation := round64 (p.rotation + p.rotationSpeed)
  { p with x := x, y := y, vx := vx, vy := vy, life := life, size := size,
           rotation := rotation }

/-- The method `Particle.isDead()`: `this.life <= 0`. -/
def Particle.isDead (p : Particle) : Bool := decide (p.life ≤ 0)

/-! ## Game controller -/

namespace SensorySwipeGame

/-- The field values set by the constructor; no inline background style is set yet. -/
def initial : SensorySwipeGame :=
  { currentState := GameState.HOME
    particles := []
    trails := []
    currentTrail := none
    isDrawing := false
    lastPoint := none
    currentBgIndex := 0
    background := none }

/-- The method `startGame()`. -/
def startGame (g : SensorySwipeGame) : SensorySwipeGame :=
  { g with currentState := GameState.PLAYING }

/-- The method `goHome()`. -/
def goHome (g : SensorySwipeGame) : SensorySwipeGame :=
  { g with currentState := GameState.HOME
           particles := []
           trails := []
           currentTrail := none
           isDrawing := false }

/-- The method `changeBackgroundColor()`. -/
def changeBackgroundColor (g : SensorySwipeGame) : SensorySwipeGame :=
  let i := (g.currentBgIndex + 1) % backgroundColors.length
  { g with currentBgIndex := i, background := backgroundColors[i]? }

/-- The method `startDrawing(point)`; `now` is the value of `Date.now()`, `rColor` and
`rStyle` the random draws of `getRandomColor` and `getRandomParticleStyle`.
(`playSwipeSound` only touches the audio elements.) -/
def startDrawing (g : SensorySwipeGame) (point : Point) (now : Int) (rColor rStyle : ℚ) :
    SensorySwipeGame :=
  if g.currentState ≠ GameState.PLAYING then g
  else
    changeBackgroundColor
      { g with isDrawing := true
               lastPoint := some point
               currentTrail := some
                 { points := [point]
                   color := getRandomColor rColor
                   style := getRandomParticleStyle rStyle
                   startTime := now } }

/-- `Math.floor(distance / 5)` for `distance = Math.sqrt(dx² + dy²)`, computed in exact
arithmetic: the integer square root of `⌊(dx² + dy²) / 25⌋`
(see `floorDistanceDiv5_eq` for the agreement with the real square root). -/
def floorDistanceDiv5 (start endp : Point) : Nat :=
  Nat.sqrt ⌊((endp.x - start.x) ^ 2 + (endp.y - start.y) ^ 2) / 25⌋₊

/-- The local `particleCount` of `addParticlesAlongLine`:
`Math.max(1, Math.floor(distance / 5))`. -/
def particleCount (start endp : Point) : Nat :=
  max 1 (floorDistanceDiv5 start endp)

/-- The particle pushed by iteration `i` of the loop of `addParticlesAlongLine`, when the
loop bound is `count`.  Iteration `i` performs eight random draws, `rnd (8 i)` to
`rnd (8 i + 7)`: the two offsets, then the six draws of the constructor. -/
def spawnAlongLine (start endp : Point) (color style : Option String) (rnd : Nat → ℚ)
    (count i : Nat) : Particle :=
  let t : ℚ := (i : ℚ) / (count : ℚ)
  let x := start.x + (endp.x - start.x) * t
  let y := start.y + (endp.y - start.y) * t
  let offsetX := (rnd (8 * i) - 0.5) * 10
  let offsetY := (rnd (8 * i + 1) - 0.5) * 10
  Particle.new (x + offsetX) (y + offsetY) color style rnd (8 * i + 2)

/-- The loop `for (let i = 0; i < particleCount; i++) { ... push ... }`, with `todo`
iterations left (so the current index is `count - todo`). -/
def addLoop (start endp : Point) (color style : Option String) (rnd : Nat → ℚ)
    (count : Nat) : Nat → List Particle → List Particle
  | 0, ps => ps
  | todo + 1, ps =>
      addLoop start endp color style rnd count todo
        (ps ++ [spawnAlongLine start endp color style rnd count (count - (todo + 1))])

/-- The method `addParticlesAlongLine(start, end, color, style)`. -/
def addParticlesAlongLine (g : SensorySwipeGame) (start endp : Point)
    (color style : Option String) (rnd : Nat → ℚ) : SensorySwipeGame :=
  let count := particleCount start endp
  { g with particles := addLoop start endp color style rnd count count g.particles }

/-- The method `continueDrawing(point)`.  Reading `this.currentTrail.color` while
`currentTrail` is `null` raises a `TypeError` before anything is changed: `none`. -/
def continueDrawing (g : SensorySwipeGame) (point : Point) (rnd : Nat → ℚ) :
    Option SensorySwipeGame :=
  if !g.isDrawing || g.currentState ≠ GameState.PLAYING then some g
  else
    match g.lastPoint with
    | some last =>
        match g.currentTrail with
        | none => none
        | some trail =>
            let g1 := addParticlesAlongLine g last point trail.color trail.style rnd
            some { g1 with currentTrail := some { trail with points := trail.points ++ [point] }
                           lastPoint := some point }
    | none => some { g with lastPoint := some point }

/-- The method `stopDrawing()`. -/
def stopDrawing (g : SensorySwipeGame) : SensorySwipeGame :=
  if !g.isDrawing then g
  else
    let trails :=
      match g.currentTrail with
      | some trail => if trail.points.length > 1 then g.trails ++ [trail] else g.trails
      | none => g.trails
    { g with isDrawing := false, trails := trails, currentTrail := none, lastPoint := none }

/-- The particle loop of `update()`:
`for (let i = particles.length - 1; i >= 0; i--)`, with `i + 1` passed as first argument.
The particle at index `i` is updated in place and spliced out when it is dead.  (The
index is always in range; the `none` branch is never taken.) -/
def updateLoop : Nat → List Particle → List Particle
  | 0, ps => ps
  | i + 1, ps =>
      match ps[i]? with
      | none => updateLoop i ps
      | some particle =>
          let ticked := particle.update
          let ps1 := ps.set i ticked
          updateLoop i (if ticked.isDead then ps1.eraseIdx i else ps1)

/-- The method `update()`; `now` is the value of `Date.now()`. -/
def update (g : SensorySwipeGame) (now : Int) : SensorySwipeGame :=
  if g.currentState ≠ GameState.PLAYING then g
  else
    { g with particles := updateLoop g.particles.length g.particles
             trails := g.trails.filter (fun trail => decide (now - trail.startTime < 5000)) }

end SensorySwipeGame

open SensorySwipeGame

/-! ## Event sequences -/

/-- The calls that the DOM event handlers and the animation frame make on the game
object, each with the values it reads from its environment. -/
inductive Event where
  | startGame
  | goHome
  | startDrawing (point : Point) (now : Int) (rColor rStyle : ℚ)
  | continueDrawing (point : Point) (rnd : Nat → ℚ)
  | stopDrawing
  | update (now : Int)

/-- One call.  A handler that raises leaves the object as it was (`continueDrawing`
raises before its first assignment). -/
def step (g : SensorySwipeGame) : Event → SensorySwipeGame
  | Event.startGame => g.startGame
  | Event.goHome => g.goHome
  | Event.startDrawing point now rColor rStyle => g.startDrawing point now rColor rStyle
  | Event.continueDrawing point rnd => (g.continueDrawing point rnd).getD g
  | Event.stopDrawing => g.stopDrawing
  | Event.update now => g.update now

/-- The state after a sequence of calls. -/
def run (g : SensorySwipeGame) (events : List Event) : SensorySwipeGame :=
  events.foldl step g

/-- The states reachable from the constructed object. -/
def Reachable (g : SensorySwipeGame) : Prop :=
  ∃ events : List Event, run initial events = g

/-! ## Specification-side definitions, invariant and sample states -/

/-- The simulation step in the words of the specification: every live particle is ticked
once, then the expired ones (`life ≤ 0`) are removed. -/
def tickAndExpire (ps : List Particle) : List Particle :=
  (ps.map Particle.update).filter (fun p => decide (0 < p.life))

/-- The properties shared by all states reachable from the constructed object. -/
structure Inv (g : SensorySwipeGame) : Prop where
  trails_len : ∀ t ∈ g.trails, 2 ≤ t.points.length
  home_clear : g.currentState = GameState.HOME →
    g.particles = [] ∧ g.trails = [] ∧ g.isDrawing = false
  alive : ∀ p ∈ g.particles, 0 < p.life
  drawing : g.isDrawing = true → g.currentTrail.isSome = true ∧ g.lastPoint.isSome = true
  bg : g.currentBgIndex < backgroundColors.length

/-- Successive `update()` calls, one for each `Date.now()` value of `times`. -/
def updates (g : SensorySwipeGame) (times : List Int) : SensorySwipeGame :=
  times.foldl update g

/-- The particle constructed at the origin when every random draw is `1/4`: life `1`,
decay `0.025` in binary64. -/
def sampleParticle : Particle :=
  Particle.new 0 0 none none (fun _ => 1 / 4) 0

/-- A playing game whose only live particle is `sampleParticle`. -/
def sampleGame : SensorySwipeGame :=
  { initial.startGame with particles := [sampleParticle] }

/-- The particle constructed at the origin when every random draw is
`3002399751580331 / 2 ^ 52`, the binary64 number nearest to `2/3`. -/
def driftParticle : Particle :=
  Particle.new 0 0 none none (fun _ => 3002399751580331 / 2 ^ 52) 0

/-- A playing game whose only live particle is `driftParticle`. -/
def driftGame : SensorySwipeGame :=
  { initial.startGame with particles := [driftParticle] }

/-- A finished gesture: start the game, press at `(0,0)` at time `0`, move to `(0,0)`
again (all random draws `0`), release. -/
def gestureEvents : List Event :=
  [ Event.startGame,
    Event.startDrawing ⟨0, 0⟩ 0 0 0,
    Event.continueDrawing ⟨0, 0⟩ (fun _ => 0),
    Event.stopDrawing ]

/-- The state after `gestureEvents`: playing, one live particle, one retained trail. -/
def busyGame : SensorySwipeGame := run initial gestureEvents

/-- The state after a press at `(0,0)` in a fresh game, before any move. -/
def pressedGame : SensorySwipeGame :=
  run initial [Event.startGame, Event.startDrawing ⟨0, 0⟩ 0 0 0]

/-- Whether the call is a gesture-start that `startDrawing` accepts (state playing). -/
def isAcceptedStart (g : SensorySwipeGame) : Event → Bool
  | Event.startDrawing _ _ _ _ => decide (g.currentState = GameState.PLAYING)
  | _ => false

/-- The number of accepted gesture-starts in a sequence of calls made from state `g`. -/
def acceptedStarts : SensorySwipeGame → List Event → Nat
  | _, [] => 0
  | g, e :: es => (if isAcceptedStart g e then 1 else 0) + acceptedStarts (step g e) es

/-- Start the game, then eight gesture-starts at `(0,0)`. -/
def eightStarts : List Event :=
  Event.startGame :: List.replicate 8 (Event.startDrawing ⟨0, 0⟩ 0 0 0)

/-! ## The particle loop of `update` -/

theorem isDead_iff (p : Particle) : p.isDead = true ↔ p.life ≤ 0 := by
  simp [Particle.isDead]

theorem isDead_eq_false_iff (p : Particle) : p.isDead = false ↔ 0 < p.life := by
  simp [Particle.isDead]

theorem updateLoop_append (l₁ l₂ : List Particle) :
    updateLoop l₁.length (l₁ ++ l₂) = tickAndExpire l₁ ++ l₂ := by
  induction l₁ using List.reverseRecOn generalizing l₂ with
  | nil => simp [updateLoop, tickAndExpire]
  | append_singleton l p ih =>
    have hlen : (l ++ [p]).length = l.length + 1 := by simp
    rw [hlen, updateLoop]
    have hget : (l ++ [p] ++ l₂)[l.length]? = some p := by
      rw [List.append_assoc, List.getElem?_append_right (le_refl _)]
      simp
    rw [hget]
    have hset : (l ++ [p] ++ l₂).set l.length p.update = l ++ p.update :: l₂ := by
      simp [List.set_append]
    simp only [hset]
    by_cases hd : p.update.isDead = true
    · have herase : (l ++ p.update :: l₂).eraseIdx l.length = l ++ l₂ := by
        rw [List.eraseIdx_append_of_length_le (le_refl _)]
        simp
      rw [if_pos hd, herase, ih]
      have : ¬ (0 < p.update.life) := by
        rw [isDead_iff] at hd; exact not_lt.mpr hd
      simp [tickAndExpire, List.filter_append, this]
    · rw [if_neg hd, ih]
      have : 0 < p.update.life := by
        simpa [Particle.isDead] using hd
      simp [tickAndExpire, List.filter_append, this]

theorem updateLoop_eq (ps : List Particle) :
    updateLoop ps.length ps = tickAndExpire ps := by
  simpa using updateLoop_append ps []

/-! ## The emitter loop -/

theorem addLoop_eq (start endp : Point) (color style : Option String) (rnd : Nat → ℚ)
    (count : Nat) :
    ∀ (todo : Nat) (ps : List Particle), todo ≤ count →
      addLoop start endp color style rnd count todo ps =
        ps ++ (List.range todo).map
          (fun j => spawnAlongLine start endp color style rnd count (count - todo + j)) := by
  intro todo
  induction todo with
  | zero => intro ps _; simp [addLoop]
  | succ n ih =>
    intro ps h
    rw [addLoop, ih _ (Nat.le_of_succ_le h), List.range_succ_eq_map]
    simp only [List.append_assoc, List.singleton_append, List.map_cons, List.map_map,
      Nat.add_zero]
    congr 2
    apply List.map_congr_left
    intro j _
    simp only [Function.comp]
    congr 1
    omega

theorem addParticlesAlongLine_particles (g : SensorySwipeGame) (start endp : Point)
    (color style : Option String) (rnd : Nat → ℚ) :
    (g.addParticlesAlongLine start endp color style rnd).particles =
      g.particles ++ (List.range (particleCount start endp)).map
        (spawnAlongLine start endp color style rnd (particleCount start endp)) := by
  simp [addParticlesAlongLine, addLoop_eq]

theorem spawnAlongLine_life (start endp : Point) (color style : Option String)
    (rnd : Nat → ℚ) (count i : Nat) :
    (spawnAlongLine start endp color style rnd count i).life = 1 := by
  norm_num [spawnAlongLine, Particle.new]

/-! ## Invariant of the reachable states -/

theorem inv_initial : Inv initial := by
  refine ⟨?_, ?_, ?_, ?_, ?_⟩ <;> simp [initial, backgroundColors]

theorem inv_startGame {g : SensorySwipeGame} (h : Inv g) : Inv g.startGame := by
  refine ⟨h.trails_len, ?_, h.alive, h.drawing, h.bg⟩
  intro hc
  simp [startGame] at hc

theorem inv_goHome {g : SensorySwipeGame} (h : Inv g) : Inv g.goHome := by
  refine ⟨?_, ?_, ?_, ?_, h.bg⟩ <;> simp [goHome]

theorem inv_startDrawing {g : SensorySwipeGame} (h : Inv g) (point : Point) (now : Int)
    (rColor rStyle : ℚ) : Inv (g.startDrawing point now rColor rStyle) := by
  unfold startDrawing
  split
  · exact h
  · rename_i hp
    have hp' : g.currentState = GameState.PLAYING := by simpa using hp
    refine ⟨h.trails_len, ?_, h.alive, ?_, ?_⟩
    · intro hc
      simp [changeBackgroundColor, hp'] at hc
    · intro _
      simp [changeBackgroundColor]
    · simp only [changeBackgroundColor]
      exact Nat.mod_lt _ (by simp [backgroundColors])

theorem inv_continueDrawing {g : SensorySwipeGame} (h : Inv g) (point : Point)
    (rnd : Nat → ℚ) : ∀ g', g.continueDrawing point rnd = some g' → Inv g' := by
  intro g' hg
  unfold continueDrawing at hg
  split at hg
  · cases hg; exact h
  · rename_i hcond
    have hplay : g.currentState = GameState.PLAYING := by
      by_contra hne
      exact hcond (by simp [hne])
    cases hl : g.lastPoint with
    | none =>
      rw [hl] at hg
      cases hg
      refine ⟨h.trails_len, ?_, h.alive, ?_, h.bg⟩
      · intro hc; simp [hplay] at hc
      · intro hd; exact ⟨(h.drawing hd).1, rfl⟩
    | some last =>
      rw [hl] at hg
      cases ht : g.currentTrail with
      | none => rw [ht] at hg; simp at hg
      | some trail =>
        rw [ht] at hg
        simp only [Option.some.injEq] at hg
        subst hg
        refine ⟨h.trails_len, ?_, ?_, ?_, h.bg⟩
        · intro hc; simp [addParticlesAlongLine, hplay] at hc
        · intro p hpm
          simp only [addParticlesAlongLine_particles, List.mem_append, List.mem_map] at hpm
          rcases hpm with hpm | ⟨i, _, rfl⟩
          · exact h.alive p hpm
          · rw [spawnAlongLine_life]; exact one_pos
        · intro _; simp

theorem inv_stopDrawing {g : SensorySwipeGame} (h : Inv g) : Inv g.stopDrawing := by
  unfold stopDrawing
  split
  · exact h
  · rename_i hd
    have hd' : g.isDrawing = true := by simpa using hd
    have hplay : g.currentState ≠ GameState.HOME := by
      intro hc
      have := (h.home_clear hc).2.2
      simp [this] at hd'
    refine ⟨?_, ?_, h.alive, ?_, h.bg⟩
    · intro t ht
      cases hct : g.currentTrail with
      | none => simp only [hct] at ht; exact h.trails_len t ht
      | some trail =>
        simp only [hct] at ht
        split at ht
        · rename_i hlen
          rcases List.mem_append.mp ht with hm | hm
          · exact h.trails_len t hm
          · simp only [List.mem_singleton] at hm
            subst hm; omega
        · exact h.trails_len t ht
    · intro hc; exact absurd hc hplay
    · intro hc; simp at hc

theorem mem_tickAndExpire {ps : List Particle} {p : Particle} (hp : p ∈ tickAndExpire ps) :
    0 < p.life := by
  simp only [tickAndExpire, List.mem_filter, decide_eq_true_eq] at hp
  exact hp.2

theorem inv_update {g : SensorySwipeGame} (h : Inv g) (now : Int) : Inv (g.update now) := by
  unfold update
  split
  · exact h
  · rename_i hp
    have hplay : g.currentState = GameState.PLAYING := by simpa using hp
    refine ⟨?_, ?_, ?_, h.drawing, h.bg⟩
    · intro t ht
      exact h.trails_len t (List.mem_of_mem_filter ht)
    · intro hc; simp [hplay] at hc
    · intro p hpm
      simp only [updateLoop_eq] at hpm
      exact mem_tickAndExpire hpm

theorem inv_step {g : SensorySwipeGame} (h : Inv g) (e : Event) : Inv (step g e) := by
  cases e with
  | startGame => exact inv_startGame h
  | goHome => exact inv_goHome h
  | startDrawing point now rColor rStyle => exact inv_startDrawing h point now rColor rStyle
  | continueDrawing point rnd =>
    simp only [step]
    cases hc : g.continueDrawing point rnd with
    | none => simpa using h
    | some g' => simpa using inv_continueDrawing h point rnd g' hc
  | stopDrawing => exact inv_stopDrawing h
  | update now => exact inv_update h now

theorem inv_run {g : SensorySwipeGame} (h : Inv g) (events : List Event) :
    Inv (run g events) := by
  induction events generalizing g with
  | nil => exact h
  | cons e es ih => exact ih (inv_step h e)

theorem inv_of_reachable {g : SensorySwipeGame} (h : Reachable g) : Inv g := by
  obtain ⟨events, rfl⟩ := h
  exact inv_run inv_initial events

/-! ## Particle lifetime -/

theorem update_particles_of_playing (g : SensorySwipeGame) (now : Int)
    (h : g.currentState = GameState.PLAYING) :
    (g.update now).particles = tickAndExpire g.particles := by
  simp [update, h, updateLoop_eq]

theorem update_currentState (g : SensorySwipeGame) (now : Int) :
    (g.update now).currentState = g.currentState := by
  unfold update; split <;> rfl

theorem updates_particles (times : List Int) :
    ∀ g : SensorySwipeGame, g.currentState = GameState.PLAYING →
      (updates g times).particles = tickAndExpire^[times.length] g.particles := by
  induction times with
  | nil => intro g _; rfl
  | cons t ts ih =>
    intro g h
    have h1 : (g.update t).currentState = GameState.PLAYING := by
      rw [update_currentState]; exact h
    show (updates (g.update t) ts).particles = _
    rw [ih _ h1, update_particles_of_playing g t h, List.length_cons,
      Function.iterate_succ_apply]

theorem tickAndExpire_append (a b : List Particle) :
    tickAndExpire (a ++ b) = tickAndExpire a ++ tickAndExpire b := by
  simp [tickAndExpire]

theorem tickAndExpire_iterate_append (n : Nat) :
    ∀ a b : List Particle,
      tickAndExpire^[n] (a ++ b) = tickAndExpire^[n] a ++ tickAndExpire^[n] b := by
  induction n with
  | zero => intro a b; rfl
  | succ n ih =>
    intro a b
    simp only [Function.iterate_succ_apply, tickAndExpire_append, ih]

theorem update_iterate_decay (p : Particle) (n : Nat) :
    (Particle.update^[n] p).decay = p.decay := by
  induction n with
  | zero => rfl
  | succ n ih => rw [Function.iterate_succ_apply']; simpa [Particle.update] using ih

/-! ## Binary64 rounding: error bound and sign -/

theorem roundHalfEven_abs_sub_le (y : ℚ) : |(roundHalfEven y : ℚ) - y| ≤ 1 / 2 := by
  have h1 : ((⌊y⌋ : ℤ) : ℚ) ≤ y := Int.floor_le y
  have h2 : y < ((⌊y⌋ : ℤ) : ℚ) + 1 := Int.lt_floor_add_one y
  unfold roundHalfEven
  simp only
  split_ifs with ha hb hc
  · rw [abs_le]; constructor <;> linarith
  · push_cast; rw [abs_le]; constructor <;> linarith
  · rw [abs_le]; constructor <;> linarith
  · push_cast; rw [abs_le]; constructor <;> linarith

theorem floor_le_roundHalfEven (y : ℚ) : ⌊y⌋ ≤ roundHalfEven y := by
  unfold roundHalfEven
  simp only
  split_ifs <;> omega

theorem round64_abs_sub_le (x : ℚ) (hx : |x| < 2) : |round64 x - x| ≤ 1 / 2 ^ 53 := by
  unfold round64
  split_ifs with h0
  · subst h0; norm_num
  · simp only
    set e : ℤ := max (Int.log 2 |x|) (-1022) with he
    have hpos : (0 : ℚ) < |x| := abs_pos.mpr h0
    have hlog : Int.log 2 |x| < 1 := by
      rw [← Int.lt_zpow_iff_log_lt (by norm_num) hpos]
      simpa using hx
    have hele : e ≤ 0 := by
      rw [he]; exact max_le (by omega) (by norm_num)
    have hu : (0 : ℚ) < 2 ^ (e - 52) := zpow_pos (by norm_num) _
    have hule : (2 : ℚ) ^ (e - 52) ≤ 2 ^ (-52 : ℤ) :=
      zpow_le_zpow_right₀ (by norm_num) (by omega)
    have hr := roundHalfEven_abs_sub_le (x / 2 ^ (e - 52))
    have heq : (roundHalfEven (x / 2 ^ (e - 52)) : ℚ) * 2 ^ (e - 52) - x =
        ((roundHalfEven (x / 2 ^ (e - 52)) : ℚ) - x / 2 ^ (e - 52)) * 2 ^ (e - 52) := by
      field_simp
    rw [heq, abs_mul, abs_of_pos hu]
    have h52 : (2 : ℚ) ^ (-52 : ℤ) = 1 / 2 ^ 52 := by norm_num [zpow_neg]
    calc |(roundHalfEven (x / 2 ^ (e - 52)) : ℚ) - x / 2 ^ (e - 52)| * 2 ^ (e - 52)
        ≤ 1 / 2 * 2 ^ (-52 : ℤ) := mul_le_mul hr hule hu.le (by norm_num)
      _ = 1 / 2 ^ 53 := by rw [h52]; norm_num

theorem round64_pos (x : ℚ) (hx : (2 : ℚ) ^ (-1022 : ℤ) ≤ x) : 0 < round64 x := by
  have hxpos : 0 < x := lt_of_lt_of_le (zpow_pos (by norm_num) _) hx
  unfold round64
  rw [if_neg hxpos.ne']
  simp only
  set e : ℤ := max (Int.log 2 |x|) (-1022) with he
  have habs : |x| = x := abs_of_pos hxpos
  have hle : (2 : ℚ) ^ e ≤ x := by
    rcases max_choice (Int.log 2 |x|) (-1022) with h | h
    · rw [he, h, habs]
      exact_mod_cast Int.zpow_log_le_self (by norm_num) hxpos
    · rw [he, h]; exact hx
  have hu : (0 : ℚ) < 2 ^ (e - 52) := zpow_pos (by norm_num) _
  have hy : (1 : ℚ) ≤ x / 2 ^ (e - 52) := by
    rw [le_div_iff₀ hu, one_mul]
    exact le_trans (zpow_le_zpow_right₀ (by norm_num) (by omega)) hle
  have hfloor : (1 : ℤ) ≤ ⌊x / 2 ^ (e - 52)⌋ := Int.le_floor.mpr (by exact_mod_cast hy)
  have hround := floor_le_roundHalfEven (x / 2 ^ (e - 52))
  have : (0 : ℚ) < (roundHalfEven (x / 2 ^ (e - 52)) : ℚ) := by
    exact_mod_cast (by omega : (0 : ℤ) < roundHalfEven (x / 2 ^ (e - 52)))
  exact mul_pos this hu

/-! ## Particle lifetime in binary64 -/

theorem update_iterate_life_succ (p : Particle) (n : Nat) :
    (Particle.update^[n + 1] p).life =
      round64 ((Particle.update^[n] p).life - p.decay) := by
  rw [Function.iterate_succ_apply', ← update_iterate_decay p n]
  rfl

theorem tickAndExpire_singleton (q : Particle) :
    tickAndExpire [q] = if 0 < q.update.life then [q.update] else [] := by
  simp [tickAndExpire, List.filter_cons]

theorem tickAndExpire_iterate_singleton (p : Particle) (N : Nat)
    (halive : ∀ m, 0 < m → m < N → 0 < (Particle.update^[m] p).life) :
    (∀ n, n < N → tickAndExpire^[n] [p] = [Particle.update^[n] p]) ∧
    (0 < N → (Particle.update^[N] p).life ≤ 0 → tickAndExpire^[N] [p] = []) := by
  have hlt : ∀ m : Nat, m < N → tickAndExpire^[m] [p] = [Particle.update^[m] p] := by
    intro m
    induction m with
    | zero => intro _; rfl
    | succ m ih =>
      intro hm
      rw [Function.iterate_succ_apply', ih (Nat.lt_of_succ_lt hm), tickAndExpire_singleton,
        ← Function.iterate_succ_apply' Particle.update,
        if_pos (halive (m + 1) (Nat.succ_pos m) hm)]
  refine ⟨hlt, ?_⟩
  intro hN hdead
  cases N with
  | zero => exact absurd hN (lt_irrefl 0)
  | succ m =>
    rw [Function.iterate_succ_apply', hlt m (Nat.lt_succ_self m), tickAndExpire_singleton,
      ← Function.iterate_succ_apply' Particle.update, if_neg (not_lt.mpr hdead)]

theorem life_error_le (p : Particle) (hlife : p.life = 1) (hlo : 0.02 ≤ p.decay)
    (hhi : p.decay < 0.04) :
    ∀ n : Nat, n ≤ 52 →
      |(Particle.update^[n] p).life - (1 - n * p.decay)| ≤ n / 2 ^ 53 := by
  intro n
  induction n with
  | zero => intro _; simp [hlife]
  | succ n ih =>
    intro hn
    have hn' : n ≤ 52 := by omega
    have hA := ih hn'
    have hnq : (n : ℚ) ≤ 52 := by exact_mod_cast hn'
    have hn0 : (0 : ℚ) ≤ n := by positivity
    have hsmall : (n : ℚ) / 2 ^ 53 ≤ 1 / 100 := by
      rw [div_le_iff₀ (by positivity)]; norm_num; linarith
    rw [abs_le] at hA
    have hx : |(Particle.update^[n] p).life - p.decay| < 2 := by
      rw [abs_lt]
      constructor <;> nlinarith
    have hr := round64_abs_sub_le _ hx
    rw [abs_le] at hr
    rw [update_iterate_life_succ, abs_le]
    push_cast
    constructor
    · have : ((n : ℚ) + 1) / 2 ^ 53 = n / 2 ^ 53 + 1 / 2 ^ 53 := by ring
      rw [this]; linarith
    · have : ((n : ℚ) + 1) / 2 ^ 53 = n / 2 ^ 53 + 1 / 2 ^ 53 := by ring
      rw [this]; linarith


theorem ceil_inv_decay_bounds (d : ℚ) (hlo : 0.02 ≤ d) (hhi : d < 0.04) :
    26 ≤ ⌈1 / d⌉₊ ∧ ⌈1 / d⌉₊ ≤ 50 := by
  have hd : 0 < d := lt_of_lt_of_le (by norm_num) hlo
  constructor
  · have h25 : ((25 : Nat) : ℚ) < 1 / d := by
      rw [lt_div_iff₀ hd]; push_cast; linarith
    exact Nat.lt_ceil.mpr h25
  · apply Nat.ceil_le.mpr
    rw [div_le_iff₀ hd]; push_cast; linarith

theorem life_nonpos_after_ceil_succ (p : Particle) (hlife : p.life = 1)
    (hlo : 0.02 ≤ p.decay) (hhi : p.decay < 0.04) :
    (Particle.update^[⌈1 / p.decay⌉₊ + 1] p).life ≤ 0 := by
  have hd : 0 < p.decay := lt_of_lt_of_le (by norm_num) hlo
  obtain ⟨_, hc50⟩ := ceil_inv_decay_bounds p.decay hlo hhi
  have hA := life_error_le p hlife hlo hhi (⌈1 / p.decay⌉₊ + 1) (by omega)
  rw [abs_le] at hA
  have hc : 1 / p.decay ≤ (⌈1 / p.decay⌉₊ : ℚ) := Nat.le_ceil _
  have hcd : 1 ≤ (⌈1 / p.decay⌉₊ : ℚ) * p.decay := by
    rwa [div_le_iff₀ hd] at hc
  have hcq : (⌈1 / p.decay⌉₊ : ℚ) ≤ 50 := by exact_mod_cast hc50
  generalize ⌈1 / p.decay⌉₊ = c at hA hcd hcq ⊢
  push_cast at hA
  have hsmall : ((c : ℚ) + 1) / 2 ^ 53 ≤ 1 / 100 := by
    rw [div_le_iff₀ (by positivity)]
    have : (51 : ℚ) ≤ 1 / 100 * 2 ^ 53 := by norm_num
    linarith
  nlinarith [hA.2]

theorem life_pos_before_ceil_pred (p : Particle) (hlife : p.life = 1)
    (hlo : 0.02 ≤ p.decay) (hhi : p.decay < 0.04) (n : Nat)
    (hn : n + 2 ≤ ⌈1 / p.decay⌉₊) : 0 < (Particle.update^[n] p).life := by
  have hd : 0 < p.decay := lt_of_lt_of_le (by norm_num) hlo
  obtain ⟨_, hc50⟩ := ceil_inv_decay_bounds p.decay hlo hhi
  have hA := life_error_le p hlife hlo hhi n (by omega)
  rw [abs_le] at hA
  have hc : (⌈1 / p.decay⌉₊ : ℚ) < 1 / p.decay + 1 :=
    Nat.ceil_lt_add_one (by positivity)
  have hnq : (n : ℚ) + 2 ≤ (⌈1 / p.decay⌉₊ : ℚ) := by exact_mod_cast hn
  have h1 : (n : ℚ) + 1 < 1 / p.decay := by linarith
  have h2 : ((n : ℚ) + 1) * p.decay < 1 := by rwa [lt_div_iff₀ hd] at h1
  have hn48 : (n : ℚ) ≤ 48 := by
    have : n ≤ 48 := by omega
    exact_mod_cast this
  have hsmall : (n : ℚ) / 2 ^ 53 ≤ 1 / 100 := by
    rw [div_le_iff₀ (by positivity)]; norm_num; linarith
  nlinarith [hA.1]

/-! ## Claims on the particle simulation -/

/-- C1 (counterexample): the claim as stated fails in binary64.  The particle constructed
with the random draw `3002399751580331 / 2 ^ 52` has life `1` and a decay `d` with
`0.02 ≤ d < 0.04` and `⌈1 / d⌉ = 30`.  After 29 ticks its life is
`2401919801264277 / 2 ^ 56`, not `1 - 29 d`; it is still in the live list after update
number 30 and is removed by update number 31. -/
theorem particle_outlives_ceil_ticks :
    driftGame.currentState = GameState.PLAYING ∧
    driftGame.particles = [driftParticle] ∧
    driftParticle.life = 1 ∧
    driftParticle.decay = 2401919801264265 / 2 ^ 56 ∧
    (0.02 : ℚ) ≤ driftParticle.decay ∧ driftParticle.decay < 0.04 ∧
    ⌈1 / driftParticle.decay⌉₊ = 30 ∧
    (Particle.update^[29] driftParticle).life = 2401919801264277 / 2 ^ 56 ∧
    (Particle.update^[29] driftParticle).life ≠ 1 - 29 * driftParticle.decay ∧
    (updates driftGame (List.replicate 30 0)).particles =
      [Particle.update^[30] driftParticle] ∧
    (updates driftGame (List.replicate 31 0)).particles = [] := by
  have hlife : driftParticle.life = 1 := by decide!
  have hdecay : driftParticle.decay = 2401919801264265 / 2 ^ 56 := by decide!
  have hlo : (0.02 : ℚ) ≤ driftParticle.decay := by rw [hdecay]; norm_num
  have hhi : driftParticle.decay < 0.04 := by rw [hdecay]; norm_num
  have hceil : ⌈1 / driftParticle.decay⌉₊ = 30 := by rw [hdecay]; decide!
  have h29 : (Particle.update^[29] driftParticle).life = 2401919801264277 / 2 ^ 56 := by
    decide!
  have h30 : 0 < (Particle.update^[30] driftParticle).life := by
    rw [update_iterate_life_succ, h29, hdecay]
    apply round64_pos
    norm_num [zpow_neg]
  have h31 : (Particle.update^[31] driftParticle).life ≤ 0 := by
    have := life_nonpos_after_ceil_succ driftParticle hlife hlo hhi
    rwa [hceil] at this
  have halive : ∀ m, 0 < m → m < 31 → 0 < (Particle.update^[m] driftParticle).life := by
    intro m _ hm
    by_cases h : m + 2 ≤ ⌈1 / driftParticle.decay⌉₊
    · exact life_pos_before_ceil_pred driftParticle hlife hlo hhi m h
    · rw [hceil] at h
      have hm' : m = 29 ∨ m = 30 := by omega
      rcases hm' with rfl | rfl
      · rw [h29]; norm_num
      · exact h30
  have hsingle := tickAndExpire_iterate_singleton driftParticle 31 halive
  refine ⟨rfl, rfl, hlife, hdecay, hlo, hhi, hceil, h29, ?_, ?_, ?_⟩
  · rw [h29, hdecay]; norm_num
  · rw [updates_particles _ _ rfl]
    exact hsingle.1 30 (by norm_num)
  · rw [updates_particles _ _ rfl]
    exact hsingle.2 (by norm_num) h31


/-- C1 (amended): for a particle with life `1` and decay `d`, `0.02 ≤ d < 0.04`, in the
live list of a playing game, every tick replaces the life by the binary64 rounding of
`life - d`.  There is an update number `N`, one of `⌈1 / d⌉ - 1`, `⌈1 / d⌉`,
`⌈1 / d⌉ + 1` and between 25 and 51, such that: after `n ≤ N` ticks the life is `1 - n d`
up to an error of at most `n / 2 ^ 53`; before tick `N` the life is positive and each
tick strictly decreases it; after fewer than `N` successive `update()` calls the particle
is still in the live list, between the survivors of the particles before and after it;
and update number `N` makes its life `≤ 0` and removes it. -/
theorem particle_removed_within_one_of_ceil (g : SensorySwipeGame)
    (front back : List Particle) (p : Particle)
    (hplay : g.currentState = GameState.PLAYING)
    (hps : g.particles = front ++ p :: back)
    (hlife : p.life = 1) (hlo : 0.02 ≤ p.decay) (hhi : p.decay < 0.04) :
    (∀ n : Nat, (Particle.update^[n + 1] p).life =
        round64 ((Particle.update^[n] p).life - p.decay)) ∧
    ∃ N : Nat,
      ⌈1 / p.decay⌉₊ ≤ N + 1 ∧ N ≤ ⌈1 / p.decay⌉₊ + 1 ∧ 25 ≤ N ∧ N ≤ 51 ∧
      (∀ n : Nat, n ≤ N →
          |(Particle.update^[n] p).life - (1 - n * p.decay)| ≤ n / 2 ^ 53) ∧
      (∀ n : Nat, n < N → 0 < (Particle.update^[n] p).life ∧
          (Particle.update^[n + 1] p).life < (Particle.update^[n] p).life) ∧
      (Particle.update^[N] p).life ≤ 0 ∧
      (∀ times : List Int, times.length < N →
          (updates g times).particles =
            (updates { g with particles := front } times).particles ++
              Particle.update^[times.length] p ::
                (updates { g with particles := back } times).particles) ∧
      (∀ times : List Int, times.length = N →
          (updates g times).particles =
            (updates { g with particles := front } times).particles ++
              (updates { g with particles := back } times).particles) := by
  refine ⟨update_iterate_life_succ p, ?_⟩
  obtain ⟨hc26, hc50⟩ := ceil_inv_decay_bounds p.decay hlo hhi
  have hex : ∃ n : Nat, (Particle.update^[n] p).life ≤ 0 :=
    ⟨_, life_nonpos_after_ceil_succ p hlife hlo hhi⟩
  have hNle : Nat.find hex ≤ ⌈1 / p.decay⌉₊ + 1 :=
    Nat.find_min' hex (life_nonpos_after_ceil_succ p hlife hlo hhi)
  have hNdead : (Particle.update^[Nat.find hex] p).life ≤ 0 := Nat.find_spec hex
  have hNalive : ∀ n : Nat, n < Nat.find hex → 0 < (Particle.update^[n] p).life := by
    intro n hn
    exact not_le.mp (Nat.find_min hex hn)
  have hNge : ⌈1 / p.decay⌉₊ ≤ Nat.find hex + 1 := by
    by_contra hcon
    have h2 : Nat.find hex + 2 ≤ ⌈1 / p.decay⌉₊ := by omega
    exact absurd hNdead
      (not_le.mpr (life_pos_before_ceil_pred p hlife hlo hhi _ h2))
  have herr : ∀ n : Nat, n ≤ Nat.find hex →
      |(Particle.update^[n] p).life - (1 - n * p.decay)| ≤ n / 2 ^ 53 := by
    intro n hn
    exact life_error_le p hlife hlo hhi n (by omega)
  have hsplit : ∀ times : List Int, (updates g times).particles =
      tickAndExpire^[times.length] front ++ tickAndExpire^[times.length] [p] ++
        tickAndExpire^[times.length] back := by
    intro times
    rw [updates_particles times g hplay, hps,
      show front ++ p :: back = front ++ [p] ++ back by simp,
      tickAndExpire_iterate_append, tickAndExpire_iterate_append]
  have hfront : ∀ times : List Int,
      (updates { g with particles := front } times).particles =
        tickAndExpire^[times.length] front := fun times => updates_particles times _ hplay
  have hback : ∀ times : List Int,
      (updates { g with particles := back } times).particles =
        tickAndExpire^[times.length] back := fun times => updates_particles times _ hplay
  have hsingle := tickAndExpire_iterate_singleton p (Nat.find hex)
    (fun m _ hm => hNalive m hm)
  refine ⟨Nat.find hex, hNge, hNle, by omega, by omega, herr, ?_, hNdead, ?_, ?_⟩
  · intro n hn
    refine ⟨hNalive n hn, ?_⟩
    have hA := herr n (le_of_lt hn)
    rw [abs_le] at hA
    have hpos := hNalive n hn
    have hnq : (n : ℚ) ≤ 51 := by
      have : n ≤ 51 := by omega
      exact_mod_cast this
    have hn0 : (0 : ℚ) ≤ n := by positivity
    have hsmall : (n : ℚ) / 2 ^ 53 ≤ 1 / 100 := by
      rw [div_le_iff₀ (by positivity)]
      have : (51 : ℚ) ≤ 1 / 100 * 2 ^ 53 := by norm_num
      linarith
    have hx : |(Particle.update^[n] p).life - p.decay| < 2 := by
      rw [abs_lt]
      constructor <;> nlinarith
    have hr := round64_abs_sub_le _ hx
    rw [abs_le] at hr
    rw [update_iterate_life_succ]
    have h53 : (1 : ℚ) / 2 ^ 53 < 2e-2 := by norm_num
    linarith [hr.2]
  · intro times hn
    rw [hsplit, hfront, hback, hsingle.1 times.length hn]
    simp
  · intro times hn
    rw [hsplit, hfront, hback, hn, hsingle.2 (by omega) hNdead]
    simp

/-- Witness for C1 (amended): the game whose only particle was constructed with every
random draw `1/4`. -/
theorem particle_removed_within_one_of_ceil_witness :
    sampleGame.currentState = GameState.PLAYING ∧
    sampleGame.particles = [] ++ sampleParticle :: [] ∧
    sampleParticle.life = 1 ∧ (0.02 : ℚ) ≤ sampleParticle.decay ∧
    sampleParticle.decay < 0.04 ∧
    ∃ N : Nat, ⌈1 / sampleParticle.decay⌉₊ ≤ N + 1 ∧ N ≤ ⌈1 / sampleParticle.decay⌉₊ + 1 ∧
      (Particle.update^[N] sampleParticle).life ≤ 0 ∧
      ∀ times : List Int, times.length = N → (updates sampleGame times).particles = [] :=
  have h1 : sampleParticle.life = 1 := by decide!
  have h2 : (0.02 : ℚ) ≤ sampleParticle.decay := by decide!
  have h3 : sampleParticle.decay < 0.04 := by decide!
  ⟨rfl, rfl, h1, h2, h3,
    let ⟨N, a, b, _, _, _, _, c, _, d⟩ :=
      (particle_removed_within_one_of_ceil sampleGame [] [] sampleParticle rfl rfl
        h1 h2 h3).2
    ⟨N, a, b, c, fun times ht => by
      have h := d times ht
      have e1 : (updates { sampleGame with particles := [] } times).particles = [] := by
        rw [updates_particles times _ rfl]
        exact Nat.recOn times.length rfl
          (fun n ih => by rw [Function.iterate_succ_apply', ih]; rfl)
      rw [h, e1]; rfl⟩⟩

/-- C9: in the playing state the backwards loop of `update()` is "tick every live
particle once, then keep those with `life > 0`, in order"; `isDead` holds exactly when
`life ≤ 0`; in every reachable state no live particle is dead, so every particle that
an update ticks was not expired before the tick. -/
theorem update_ticks_then_expires :
    (∀ (g : SensorySwipeGame) (now : Int), g.currentState = GameState.PLAYING →
        (g.update now).particles = tickAndExpire g.particles) ∧
    (∀ p : Particle, p.isDead = true ↔ p.life ≤ 0) ∧
    (∀ g : SensorySwipeGame, Reachable g → ∀ p ∈ g.particles, p.isDead = false) ∧
    (∀ (g : SensorySwipeGame) (now : Int), Reachable g →
        g.currentState = GameState.PLAYING → ∀ p ∈ (g.update now).particles,
          ∃ q ∈ g.particles, q.isDead = false ∧ p = q.update) := by
  refine ⟨update_particles_of_playing, isDead_iff, ?_, ?_⟩
  · intro g hg p hp
    exact (isDead_eq_false_iff p).mpr ((inv_of_reachable hg).alive p hp)
  · intro g now hg hplay p hp
    rw [update_particles_of_playing g now hplay] at hp
    simp only [tickAndExpire, List.mem_filter, List.mem_map] at hp
    obtain ⟨⟨q, hq, rfl⟩, _⟩ := hp
    exact ⟨q, hq, (isDead_eq_false_iff q).mpr ((inv_of_reachable hg).alive q hq), rfl⟩

/-- Witness for C9: one update of the sample game. -/
theorem update_ticks_then_expires_witness :
    sampleGame.currentState = GameState.PLAYING ∧
    (sampleGame.update 0).particles = tickAndExpire sampleGame.particles :=
  ⟨rfl, update_ticks_then_expires.1 sampleGame 0 rfl⟩

/-- C6: `goHome()` leaves the state `home`, with no live particle, no retained trail, no
current trail and drawing inactive, whatever the state before. -/
theorem goHome_clears (g : SensorySwipeGame) :
    g.goHome.currentState = GameState.HOME ∧ g.goHome.particles = [] ∧
    g.goHome.trails = [] ∧ g.goHome.currentTrail = none ∧ g.goHome.isDrawing = false :=
  ⟨rfl, rfl, rfl, rfl, rfl⟩

/-! ## The emitter -/

theorem natSqrt_floor_div_eq (q : ℚ) (hq : 0 ≤ q) :
    Nat.sqrt ⌊q / 25⌋₊ = ⌊Real.sqrt (q : ℝ) / 5⌋₊ := by
  set k := Nat.sqrt ⌊q / 25⌋₊ with hk
  have hq25 : 0 ≤ q / 25 := by positivity
  have h1 : (25 : ℚ) * (k : ℚ) ^ 2 ≤ q := by
    have hle : ((k * k : ℕ) : ℚ) ≤ ((⌊q / 25⌋₊ : ℕ) : ℚ) := by
      exact_mod_cast Nat.sqrt_le ⌊q / 25⌋₊
    have hfl : ((⌊q / 25⌋₊ : ℕ) : ℚ) ≤ q / 25 := Nat.floor_le hq25
    push_cast at hle
    nlinarith
  have h2 : q < 25 * ((k : ℚ) + 1) ^ 2 := by
    have hlt : ⌊q / 25⌋₊ + 1 ≤ (k + 1) * (k + 1) := Nat.lt_succ_sqrt ⌊q / 25⌋₊
    have hlt' : ((⌊q / 25⌋₊ : ℕ) : ℚ) + 1 ≤ ((k : ℚ) + 1) * ((k : ℚ) + 1) := by
      exact_mod_cast hlt
    have hfl : q / 25 < ((⌊q / 25⌋₊ : ℕ) : ℚ) + 1 := Nat.lt_floor_add_one (q / 25)
    nlinarith
  have h1r : (25 : ℝ) * (k : ℝ) ^ 2 ≤ (q : ℝ) := by exact_mod_cast h1
  have h2r : (q : ℝ) < 25 * ((k : ℝ) + 1) ^ 2 := by exact_mod_cast h2
  symm
  rw [Nat.floor_eq_iff (by positivity)]
  constructor
  · rw [le_div_iff₀ (by norm_num : (0 : ℝ) < 5)]
    apply Real.le_sqrt_of_sq_le
    nlinarith
  · rw [div_lt_iff₀ (by norm_num : (0 : ℝ) < 5)]
    rw [Real.sqrt_lt' (by positivity)]
    nlinarith

theorem floorDistanceDiv5_eq (start endp : Point) :
    floorDistanceDiv5 start endp =
      ⌊Real.sqrt ((((endp.x - start.x) ^ 2 + (endp.y - start.y) ^ 2 : ℚ)) : ℝ) / 5⌋₊ := by
  unfold floorDistanceDiv5
  exact natSqrt_floor_div_eq _ (by positivity)

theorem particleCount_pos (start endp : Point) : 0 < particleCount start endp := by
  unfold particleCount; omega

theorem particleCount_same (a : Point) : particleCount a a = 1 := by
  simp [particleCount, floorDistanceDiv5]

theorem particleCount_fifty : particleCount ⟨0, 0⟩ ⟨50, 0⟩ = 10 := by
  norm_num [particleCount, floorDistanceDiv5]

/-- C2: `addParticlesAlongLine(start, end, color, style)` appends exactly
`max(1, floor(distance / 5))` particles to the live list, `distance` being the Euclidean
distance between `start` and `end`; ten particles for `(0,0)`, `(50,0)` and one particle
for a zero-length segment. -/
theorem addParticlesAlongLine_count (g : SensorySwipeGame) (start endp a : Point)
    (color style : Option String) (rnd : Nat → ℚ) :
    (∃ added : List Particle,
        (g.addParticlesAlongLine start endp color style rnd).particles =
          g.particles ++ added ∧
        added.length =
          max 1 ⌊Real.sqrt ((((endp.x - start.x) ^ 2 + (endp.y - start.y) ^ 2 : ℚ)) : ℝ)
            / 5⌋₊) ∧
    (∃ added : List Particle,
        (g.addParticlesAlongLine ⟨0, 0⟩ ⟨50, 0⟩ color style rnd).particles =
          g.particles ++ added ∧ added.length = 10) ∧
    (∃ added : List Particle,
        (g.addParticlesAlongLine a a color style rnd).particles =
          g.particles ++ added ∧ added.length = 1) := by
  refine ⟨⟨_, addParticlesAlongLine_particles g start endp color style rnd, ?_⟩,
    ⟨_, addParticlesAlongLine_particles g _ _ color style rnd, ?_⟩,
    ⟨_, addParticlesAlongLine_particles g a a color style rnd, ?_⟩⟩
  · rw [List.length_map, List.length_range, particleCount, floorDistanceDiv5_eq]
  · rw [List.length_map, List.length_range, particleCount_fifty]
  · rw [List.length_map, List.length_range, particleCount_same]

theorem spawnAlongLine_x (start endp : Point) (color style : Option String)
    (rnd : Nat → ℚ) (count i : Nat) :
    (spawnAlongLine start endp color style rnd count i).x =
      start.x + (endp.x - start.x) * ((i : ℚ) / (count : ℚ)) + (rnd (8 * i) - 0.5) * 10 := by
  simp [spawnAlongLine, Particle.new]

theorem spawnAlongLine_y (start endp : Point) (color style : Option String)
    (rnd : Nat → ℚ) (count i : Nat) :
    (spawnAlongLine start endp color style rnd count i).y =
      start.y + (endp.y - start.y) * ((i : ℚ) / (count : ℚ)) +
        (rnd (8 * i + 1) - 0.5) * 10 := by
  simp [spawnAlongLine, Particle.new]

theorem jitter_abs_le (r : ℚ) (h0 : 0 ≤ r) (h1 : r < 1) (b : ℚ) :
    |b + (r - 0.5) * 10 - b| ≤ 5 := by
  rw [abs_le]
  constructor <;> norm_num <;> linarith

/-- C3: with all random draws in `[0, 1)`, the `i`-th particle appended by
`addParticlesAlongLine` (`i < count`, `count = max(1, floor(distance / 5))`) is spawned
within 5 on each axis of the base point `start + (end - start) * (i / count)`, and
`0 ≤ i / count < 1`, so the base point lies on the segment.  For `(0,0)`, `(50,0)` the
base point is `(5 i, 0)` with `0 ≤ 5 i ≤ 50`; for `start = end` it is the shared point. -/
theorem spawn_within_jitter_of_base (g : SensorySwipeGame) (start endp : Point)
    (color style : Option String) (rnd : Nat → ℚ) (i : Nat)
    (hrnd : ∀ n, 0 ≤ rnd n ∧ rnd n < 1) (hi : i < particleCount start endp) :
    particleCount start endp =
      max 1 ⌊Real.sqrt ((((endp.x - start.x) ^ 2 + (endp.y - start.y) ^ 2 : ℚ)) : ℝ)
        / 5⌋₊ ∧
    ∃ p : Particle,
      (g.addParticlesAlongLine start endp color style rnd).particles[g.particles.length + i]?
        = some p ∧
      |p.x - (start.x + (endp.x - start.x) * ((i : ℚ) / (particleCount start endp : ℚ)))|
        ≤ 5 ∧
      |p.y - (start.y + (endp.y - start.y) * ((i : ℚ) / (particleCount start endp : ℚ)))|
        ≤ 5 ∧
      0 ≤ (i : ℚ) / (particleCount start endp : ℚ) ∧
      (i : ℚ) / (particleCount start endp : ℚ) < 1 ∧
      (start = ⟨0, 0⟩ → endp = ⟨50, 0⟩ →
        0 ≤ (5 : ℚ) * i ∧ (5 : ℚ) * i ≤ 50 ∧ |p.x - 5 * i| ≤ 5 ∧ |p.y - 0| ≤ 5) ∧
      (start = endp → |p.x - start.x| ≤ 5 ∧ |p.y - start.y| ≤ 5) := by
  refine ⟨by rw [particleCount, floorDistanceDiv5_eq], ?_⟩
  have hpos : (0 : ℚ) < (particleCount start endp : ℚ) := by
    exact_mod_cast particleCount_pos start endp
  have hx := jitter_abs_le (rnd (8 * i)) (hrnd _).1 (hrnd _).2
    (start.x + (endp.x - start.x) * ((i : ℚ) / (particleCount start endp : ℚ)))
  have hy := jitter_abs_le (rnd (8 * i + 1)) (hrnd _).1 (hrnd _).2
    (start.y + (endp.y - start.y) * ((i : ℚ) / (particleCount start endp : ℚ)))
  refine ⟨spawnAlongLine start endp color style rnd (particleCount start endp) i,
    ?_, ?_, ?_, ?_, ?_, ?_, ?_⟩
  · rw [addParticlesAlongLine_particles, List.getElem?_append_right (Nat.le_add_right _ _)]
    simp [hi]
  · rw [spawnAlongLine_x]; exact hx
  · rw [spawnAlongLine_y]; exact hy
  · positivity
  · rw [div_lt_one hpos]; exact_mod_cast hi
  · intro hs he
    subst hs he
    rw [particleCount_fifty] at hi hx hy
    have hi' : (i : ℚ) < 10 := by exact_mod_cast hi
    have hi0 : (0 : ℚ) ≤ i := by positivity
    rw [spawnAlongLine_x, spawnAlongLine_y, particleCount_fifty]
    refine ⟨by linarith, by linarith, ?_, ?_⟩
    · have e : (0 : ℚ) + (50 - 0) * ((i : ℚ) / ((10 : ℕ) : ℚ)) = 5 * i := by
        push_cast; ring
      simp only [e] at hx ⊢
      exact hx
    · have e : (0 : ℚ) + (0 - 0) * ((i : ℚ) / ((10 : ℕ) : ℚ)) = 0 := by ring
      simp only [e] at hy ⊢
      exact hy
  · intro hse
    subst hse
    rw [spawnAlongLine_x, spawnAlongLine_y]
    have ex : start.x + (start.x - start.x) * ((i : ℚ) / (particleCount start start : ℚ))
        = start.x := by ring
    have ey : start.y + (start.y - start.y) * ((i : ℚ) / (particleCount start start : ℚ))
        = start.y := by ring
    rw [ex] at hx ⊢
    rw [ey] at hy ⊢
    exact ⟨hx, hy⟩

/-- Witness for C3: the fourth particle of the segment `(0,0)`, `(50,0)`, all draws
equal to `1/2`. -/
theorem spawn_within_jitter_of_base_witness :
    (∀ n : Nat, (0 : ℚ) ≤ (fun _ => 1 / 2 : Nat → ℚ) n ∧ (fun _ => 1 / 2 : Nat → ℚ) n < 1) ∧
    3 < particleCount ⟨0, 0⟩ ⟨50, 0⟩ ∧
    ∃ p : Particle,
      (sampleGame.addParticlesAlongLine ⟨0, 0⟩ ⟨50, 0⟩ none none
        (fun _ => 1 / 2)).particles[sampleGame.particles.length + 3]? = some p ∧
      |p.x - ((0 : ℚ) + (50 - 0) * (((3 : ℕ) : ℚ) / (particleCount ⟨0, 0⟩ ⟨50, 0⟩ : ℚ)))|
        ≤ 5 :=
  ⟨fun _ => by norm_num, by norm_num [particleCount, floorDistanceDiv5],
    let ⟨p, h1, h2, _⟩ :=
      (spawn_within_jitter_of_base sampleGame ⟨0, 0⟩ ⟨50, 0⟩ none none (fun _ => 1 / 2) 3
        (fun _ => by norm_num) (by norm_num [particleCount, floorDistanceDiv5])).2
    ⟨p, h1, h2⟩⟩

/-! ## Gestures and trails -/

@[simp]
theorem addParticlesAlongLine_currentState (g : SensorySwipeGame) (a b : Point)
    (c s : Option String) (rnd : Nat → ℚ) :
    (g.addParticlesAlongLine a b c s rnd).currentState = g.currentState := rfl

@[simp]
theorem addParticlesAlongLine_trails (g : SensorySwipeGame) (a b : Point)
    (c s : Option String) (rnd : Nat → ℚ) :
    (g.addParticlesAlongLine a b c s rnd).trails = g.trails := rfl

@[simp]
theorem addParticlesAlongLine_isDrawing (g : SensorySwipeGame) (a b : Point)
    (c s : Option String) (rnd : Nat → ℚ) :
    (g.addParticlesAlongLine a b c s rnd).isDrawing = g.isDrawing := rfl

@[simp]
theorem addParticlesAlongLine_currentBgIndex (g : SensorySwipeGame) (a b : Point)
    (c s : Option String) (rnd : Nat → ℚ) :
    (g.addParticlesAlongLine a b c s rnd).currentBgIndex = g.currentBgIndex := rfl

@[simp]
theorem addParticlesAlongLine_background (g : SensorySwipeGame) (a b : Point)
    (c s : Option String) (rnd : Nat → ℚ) :
    (g.addParticlesAlongLine a b c s rnd).background = g.background := rfl

theorem busyGame_reachable : Reachable busyGame := ⟨gestureEvents, rfl⟩

theorem pressedGame_reachable : Reachable pressedGame := ⟨_, rfl⟩

theorem pressedGame_eq :
    pressedGame =
      { currentState := GameState.PLAYING
        particles := []
        trails := []
        currentTrail := some { points := [⟨0, 0⟩], color := some "#FF6B6B",
                               style := some "sparkles", startTime := 0 }
        isDrawing := true
        lastPoint := some ⟨0, 0⟩
        currentBgIndex := 1
        background := some "linear-gradient(135deg, #f093fb 0%, #f5576c 100%)" } := by
  simp [pressedGame, run, step, initial, startGame, startDrawing, changeBackgroundColor,
    backgroundColors, getRandomColor, getRandomParticleStyle, pick, colors, particleStyles]

theorem busyGame_trails :
    busyGame.trails =
      [{ points := [⟨0, 0⟩, ⟨0, 0⟩], color := some "#FF6B6B", style := some "sparkles",
         startTime := 0 }] := by
  have h : busyGame = step (Option.getD (pressedGame.continueDrawing ⟨0, 0⟩ (fun _ => 0))
      pressedGame) Event.stopDrawing := rfl
  rw [h, pressedGame_eq]
  simp [step, continueDrawing, stopDrawing]

theorem busyGame_currentState : busyGame.currentState = GameState.PLAYING := by
  have h : busyGame = step (Option.getD (pressedGame.continueDrawing ⟨0, 0⟩ (fun _ => 0))
      pressedGame) Event.stopDrawing := rfl
  rw [h, pressedGame_eq]
  simp [step, continueDrawing, stopDrawing]

theorem busyGame_particles_length : busyGame.particles.length = 1 := by
  have h : busyGame = step (Option.getD (pressedGame.continueDrawing ⟨0, 0⟩ (fun _ => 0))
      pressedGame) Event.stopDrawing := rfl
  rw [h, pressedGame_eq]
  simp [step, continueDrawing, stopDrawing, addParticlesAlongLine_particles,
    particleCount_same]

/-- C4: when drawing is active, `stopDrawing()` deactivates drawing and clears the current
trail and the last point; it appends the current trail to the retained list when the
trail has at least 2 points and leaves the list unchanged when it has fewer (or when
there is no current trail).  A press followed at once by a release adds nothing.  Every
retained trail of a reachable state has at least 2 points. -/
theorem stopDrawing_commits_iff_two_points :
    (∀ g : SensorySwipeGame, g.isDrawing = true →
        g.stopDrawing.isDrawing = false ∧ g.stopDrawing.currentTrail = none ∧
        g.stopDrawing.lastPoint = none ∧
        (g.currentTrail = none → g.stopDrawing.trails = g.trails) ∧
        (∀ trail, g.currentTrail = some trail →
          (2 ≤ trail.points.length → g.stopDrawing.trails = g.trails ++ [trail]) ∧
          (trail.points.length < 2 → g.stopDrawing.trails = g.trails))) ∧
    (∀ (g : SensorySwipeGame) (point : Point) (now : Int) (rColor rStyle : ℚ),
        g.currentState = GameState.PLAYING →
        (g.startDrawing point now rColor rStyle).stopDrawing.trails = g.trails) ∧
    (∀ g : SensorySwipeGame, Reachable g → ∀ t ∈ g.trails, 2 ≤ t.points.length) := by
  refine ⟨?_, ?_, ?_⟩
  · intro g hd
    refine ⟨?_, ?_, ?_, ?_, ?_⟩
    · simp [stopDrawing, hd]
    · simp [stopDrawing, hd]
    · simp [stopDrawing, hd]
    · intro hn; simp [stopDrawing, hd, hn]
    · intro trail ht
      constructor
      · intro hlen
        have : 1 < trail.points.length := hlen
        simp [stopDrawing, hd, ht, this]
      · intro hlen
        have : ¬ 1 < trail.points.length := by omega
        simp [stopDrawing, hd, ht, this]
  · intro g point now rColor rStyle hplay
    simp [startDrawing, hplay, changeBackgroundColor, stopDrawing]
  · intro g hg
    exact (inv_of_reachable hg).trails_len

/-- Witness for C4: releasing right after the press of `pressedGame`. -/
theorem stopDrawing_commits_iff_two_points_witness :
    pressedGame.isDrawing = true ∧
    pressedGame.stopDrawing.isDrawing = false ∧
    pressedGame.stopDrawing.currentTrail = none ∧
    pressedGame.stopDrawing.lastPoint = none :=
  have h : pressedGame.isDrawing = true := by rw [pressedGame_eq]
  ⟨h, (stopDrawing_commits_iff_two_points.1 pressedGame h).1,
    (stopDrawing_commits_iff_two_points.1 pressedGame h).2.1,
    (stopDrawing_commits_iff_two_points.1 pressedGame h).2.2.1⟩

/-- C7 (counterexample): the claim as stated fails.  In the reachable playing state
`busyGame`, `startGame()` leaves one live particle and one retained trail. -/
theorem startGame_does_not_reset :
    Reachable busyGame ∧
    busyGame.startGame.currentState = GameState.PLAYING ∧
    busyGame.startGame.particles ≠ [] ∧
    busyGame.startGame.trails ≠ [] := by
  refine ⟨busyGame_reachable, rfl, ?_, ?_⟩
  · intro h
    have hl := busyGame_particles_length
    have h' : busyGame.particles = [] := h
    rw [h'] at hl
    simp at hl
  · intro h
    have h' : busyGame.trails = [] := h
    rw [busyGame_trails] at h'
    simp at h'

/-- C7 (amended): `startGame()` sets the state to playing and changes neither the live
particle list nor the retained trail list; both lists are empty after `startGame()`
whenever it is called in a reachable home state, where the constructor or `goHome()`
has emptied them, and `goHome()` itself always empties both. -/
theorem startGame_from_home_is_empty :
    (∀ g : SensorySwipeGame, g.startGame.currentState = GameState.PLAYING ∧
        g.startGame.particles = g.particles ∧ g.startGame.trails = g.trails) ∧
    (∀ g : SensorySwipeGame, Reachable g → g.currentState = GameState.HOME →
        g.startGame.particles = [] ∧ g.startGame.trails = []) ∧
    (∀ g : SensorySwipeGame, g.goHome.particles = [] ∧ g.goHome.trails = [] ∧
        g.goHome.startGame.particles = [] ∧ g.goHome.startGame.trails = []) := by
  refine ⟨fun g => ⟨rfl, rfl, rfl⟩, ?_, fun g => ⟨rfl, rfl, rfl, rfl⟩⟩
  intro g hg hhome
  have h := (inv_of_reachable hg).home_clear hhome
  exact ⟨h.1, h.2.1⟩

/-- Witness for C7 (amended): the game is started again after `goHome()` ended the
session of `busyGame`. -/
theorem startGame_from_home_is_empty_witness :
    Reachable (run initial (gestureEvents ++ [Event.goHome])) ∧
    (run initial (gestureEvents ++ [Event.goHome])).currentState = GameState.HOME ∧
    (run initial (gestureEvents ++ [Event.goHome])).startGame.particles = [] ∧
    (run initial (gestureEvents ++ [Event.goHome])).startGame.trails = [] :=
  ⟨⟨_, rfl⟩, rfl,
    startGame_from_home_is_empty.2.1 _ ⟨_, rfl⟩ rfl⟩

/-- C8, as stated, fails: the retained trail of `busyGame` was started at time `0`; at
time `5000` its age is exactly `5000`, not more, and `update()` drops it. -/
theorem update_drops_trail_of_age_5000 :
    Reachable busyGame ∧ busyGame.currentState = GameState.PLAYING ∧
    ∃ t ∈ busyGame.trails, (5000 : Int) - t.startTime = 5000 ∧
      ¬ ((5000 : Int) - t.startTime > 5000) ∧ t ∉ (busyGame.update 5000).trails := by
  refine ⟨busyGame_reachable, busyGame_currentState, ?_⟩
  rw [update, if_neg (by simp [busyGame_currentState]), busyGame_trails]
  simp

/-- C8 (amended): an `update()` in the playing state at time `now` keeps exactly the
retained trails with `now - startTime < 5000`, in their original order; a trail is
dropped if and only if its age is at least 5000 ms, so a trail whose age is exactly
5000 ms is dropped. -/
theorem update_keeps_trails_younger_than_5000 (g : SensorySwipeGame) (now : Int)
    (hplay : g.currentState = GameState.PLAYING) :
    (g.update now).trails = g.trails.filter (fun t => decide (now - t.startTime < 5000)) ∧
    List.Sublist (g.update now).trails g.trails ∧
    (∀ t ∈ g.trails, (t ∈ (g.update now).trails ↔ now - t.startTime < 5000)) ∧
    (∀ t ∈ g.trails, (t ∉ (g.update now).trails ↔ 5000 ≤ now - t.startTime)) ∧
    (∀ t ∈ g.trails, now - t.startTime = 5000 → t ∉ (g.update now).trails) := by
  have h : (g.update now).trails =
      g.trails.filter (fun t => decide (now - t.startTime < 5000)) := by
    simp [update, hplay]
  have hmem : ∀ t ∈ g.trails, (t ∈ (g.update now).trails ↔ now - t.startTime < 5000) := by
    intro t ht
    rw [h, List.mem_filter]
    simp [ht]
  refine ⟨h, ?_, hmem, ?_, ?_⟩
  · rw [h]; exact List.filter_sublist _
  · intro t ht
    rw [hmem t ht, not_lt]
  · intro t ht hage
    rw [hmem t ht, hage]
    decide

/-- Witness for C8 (amended): `busyGame` updated at time `4999`. -/
theorem update_keeps_trails_younger_than_5000_witness :
    busyGame.currentState = GameState.PLAYING ∧
    (busyGame.update 4999).trails =
      busyGame.trails.filter (fun t => decide ((4999 : Int) - t.startTime < 5000)) :=
  ⟨busyGame_currentState,
    (update_keeps_trails_younger_than_5000 busyGame 4999 busyGame_currentState).1⟩

/-- C10: in every reachable state, drawing-active implies that the current trail and the
last point are non-null, and `continueDrawing` never raises on a null current trail; in
particular, after `goHome()` and `startGame()` a move event is ignored. -/
theorem drawing_active_has_trail_and_point :
    (∀ g : SensorySwipeGame, Reachable g →
        (g.isDrawing = true → g.currentTrail ≠ none ∧ g.lastPoint ≠ none) ∧
        ∀ (point : Point) (rnd : Nat → ℚ), g.continueDrawing point rnd ≠ none) ∧
    (∀ (g : SensorySwipeGame) (point : Point) (rnd : Nat → ℚ),
        g.goHome.startGame.continueDrawing point rnd = some g.goHome.startGame) := by
  refine ⟨?_, ?_⟩
  · intro g hg
    have hinv := inv_of_reachable hg
    have hdraw : g.isDrawing = true → g.currentTrail ≠ none ∧ g.lastPoint ≠ none := by
      intro hd
      have := hinv.drawing hd
      exact ⟨Option.isSome_iff_ne_none.mp this.1, Option.isSome_iff_ne_none.mp this.2⟩
    refine ⟨hdraw, ?_⟩
    intro point rnd
    unfold continueDrawing
    split
    · simp
    · rename_i hcond
      have hd : g.isDrawing = true := by
        by_contra hne
        exact hcond (by simp [hne])
      obtain ⟨ht, hl⟩ := hdraw hd
      cases hct : g.currentTrail with
      | none => exact absurd hct ht
      | some trail =>
        cases hlp : g.lastPoint with
        | none => exact absurd hlp hl
        | some last => simp
  · intro g point rnd
    simp [continueDrawing, goHome, startGame]

/-- Witness for C10: the state between press and first move. -/
theorem drawing_active_has_trail_and_point_witness :
    Reachable pressedGame ∧ pressedGame.isDrawing = true ∧
    pressedGame.currentTrail ≠ none ∧ pressedGame.lastPoint ≠ none :=
  have h : pressedGame.isDrawing = true := by rw [pressedGame_eq]
  ⟨pressedGame_reachable, h,
    (drawing_active_has_trail_and_point.1 pressedGame pressedGame_reachable).1 h⟩

/-! ## Background colour cycle -/

theorem backgroundColors_length : backgroundColors.length = 8 := rfl

theorem backgroundColors_nodup : backgroundColors.Nodup := by
  simp [backgroundColors]

theorem backgroundColors_getElem?_ne {i j : Nat} (hi : i < 8) (hj : j < 8) (hne : i ≠ j) :
    backgroundColors[i]? ≠ backgroundColors[j]? := by
  intro h
  have hi' : i < backgroundColors.length := hi
  have hj' : j < backgroundColors.length := hj
  rw [List.getElem?_eq_getElem hi', List.getElem?_eq_getElem hj', Option.some.injEq] at h
  exact hne ((List.Nodup.getElem_inj_iff backgroundColors_nodup).mp h)

theorem continueDrawing_bg (g g' : SensorySwipeGame) (point : Point) (rnd : Nat → ℚ)
    (h : g.continueDrawing point rnd = some g') :
    g'.currentBgIndex = g.currentBgIndex ∧ g'.background = g.background := by
  unfold continueDrawing at h
  split at h
  · cases h; exact ⟨rfl, rfl⟩
  · cases hl : g.lastPoint with
    | none => rw [hl] at h; cases h; exact ⟨rfl, rfl⟩
    | some last =>
      rw [hl] at h
      cases ht : g.currentTrail with
      | none => rw [ht] at h; simp at h
      | some trail =>
        rw [ht] at h
        simp only [Option.some.injEq] at h
        subst h
        exact ⟨rfl, rfl⟩

theorem step_bg_of_not_accepted (g : SensorySwipeGame) (e : Event)
    (h : isAcceptedStart g e = false) :
    (step g e).currentBgIndex = g.currentBgIndex ∧ (step g e).background = g.background := by
  cases e with
  | startGame => exact ⟨rfl, rfl⟩
  | goHome => exact ⟨rfl, rfl⟩
  | startDrawing point now rColor rStyle =>
    have hne : g.currentState ≠ GameState.PLAYING := by simpa [isAcceptedStart] using h
    simp [step, startDrawing, hne]
  | continueDrawing point rnd =>
    simp only [step]
    cases hc : g.continueDrawing point rnd with
    | none => exact ⟨rfl, rfl⟩
    | some g' => exact continueDrawing_bg g g' point rnd hc
  | stopDrawing =>
    simp only [step, stopDrawing]
    split <;> exact ⟨rfl, rfl⟩
  | update now =>
    simp only [step, update]
    split <;> exact ⟨rfl, rfl⟩

theorem step_bg_of_accepted (g : SensorySwipeGame) (e : Event)
    (h : isAcceptedStart g e = true) :
    (step g e).currentBgIndex = (g.currentBgIndex + 1) % 8 ∧
    (step g e).background = backgroundColors[(g.currentBgIndex + 1) % 8]? := by
  cases e with
  | startDrawing point now rColor rStyle =>
    have hp : g.currentState = GameState.PLAYING := by simpa [isAcceptedStart] using h
    simp [step, startDrawing, hp, changeBackgroundColor, backgroundColors_length]
  | startGame => simp [isAcceptedStart] at h
  | goHome => simp [isAcceptedStart] at h
  | continueDrawing point rnd => simp [isAcceptedStart] at h
  | stopDrawing => simp [isAcceptedStart] at h
  | update now => simp [isAcceptedStart] at h

theorem run_currentBgIndex (events : List Event) :
    ∀ g : SensorySwipeGame, g.currentBgIndex < 8 →
      (run g events).currentBgIndex = (g.currentBgIndex + acceptedStarts g events) % 8 := by
  induction events with
  | nil => intro g hg; simp [run, acceptedStarts, Nat.mod_eq_of_lt hg]
  | cons e es ih =>
    intro g hg
    show (run (step g e) es).currentBgIndex = _
    cases ha : isAcceptedStart g e with
    | false =>
      have hs := (step_bg_of_not_accepted g e ha).1
      rw [ih (step g e) (by rw [hs]; exact hg), hs]
      simp [acceptedStarts, ha]
    | true =>
      have hs := (step_bg_of_accepted g e ha).1
      rw [ih (step g e) (by rw [hs]; omega), hs]
      simp only [acceptedStarts, ha, if_true]
      omega

theorem run_background (events : List Event) :
    ∀ g : SensorySwipeGame,
      (g.background = backgroundColors[g.currentBgIndex]? ∨ 0 < acceptedStarts g events) →
      (run g events).background = backgroundColors[(run g events).currentBgIndex]? := by
  induction events with
  | nil =>
    intro g h
    rcases h with h | h
    · exact h
    · simp [acceptedStarts] at h
  | cons e es ih =>
    intro g h
    show (run (step g e) es).background = backgroundColors[(run (step g e) es).currentBgIndex]?
    cases ha : isAcceptedStart g e with
    | false =>
      have hs := step_bg_of_not_accepted g e ha
      apply ih
      rcases h with h | h
      · left; rw [hs.1, hs.2]; exact h
      · right; simpa [acceptedStarts, ha] using h
    | true =>
      have hs := step_bg_of_accepted g e ha
      apply ih
      left; rw [hs.1, hs.2]

/-- C5: a gesture-start accepted in the playing state advances the background index by
one modulo the palette length 8 (from 7 to 0) and displays that palette entry.  From any
index in `[0, 8)`, so also from the initial state, after calls containing 8 accepted
gesture-starts the index and the displayed palette entry are the baseline ones, and
after `k` accepted gesture-starts, `0 < k < 8`, both differ from the baseline. -/
theorem background_index_has_period_eight :
    (∀ (g : SensorySwipeGame) (point : Point) (now : Int) (rColor rStyle : ℚ),
        g.currentState = GameState.PLAYING →
        (g.startDrawing point now rColor rStyle).currentBgIndex =
          (g.currentBgIndex + 1) % 8 ∧
        (g.currentBgIndex = 7 →
          (g.startDrawing point now rColor rStyle).currentBgIndex = 0) ∧
        (g.startDrawing point now rColor rStyle).background =
          backgroundColors[(g.currentBgIndex + 1) % 8]?) ∧
    (∀ (g : SensorySwipeGame) (events : List Event), g.currentBgIndex < 8 →
        (run g events).currentBgIndex = (g.currentBgIndex + acceptedStarts g events) % 8 ∧
        (acceptedStarts g events = 8 →
          (run g events).currentBgIndex = g.currentBgIndex ∧
          (run g events).background = backgroundColors[g.currentBgIndex]?) ∧
        (0 < acceptedStarts g events → acceptedStarts g events < 8 →
          (run g events).currentBgIndex ≠ g.currentBgIndex ∧
          (run g events).background ≠ backgroundColors[g.currentBgIndex]?)) ∧
    initial.currentBgIndex = 0 ∧ backgroundColors.length = 8 := by
  refine ⟨?_, ?_, rfl, rfl⟩
  · intro g point now rColor rStyle hplay
    have h := step_bg_of_accepted g (Event.startDrawing point now rColor rStyle)
      (by simp [isAcceptedStart, hplay])
    refine ⟨h.1, ?_, h.2⟩
    intro h7
    have := h.1
    simp only [step] at this
    rw [this, h7]
  · intro g events hg
    have hidx := run_currentBgIndex events g hg
    refine ⟨hidx, ?_, ?_⟩
    · intro h8
      have hsame : (run g events).currentBgIndex = g.currentBgIndex := by
        rw [hidx, h8]; omega
      refine ⟨hsame, ?_⟩
      rw [run_background events g (Or.inr (by omega)), hsame]
    · intro h0 h8
      have hne : (run g events).currentBgIndex ≠ g.currentBgIndex := by
        rw [hidx]; omega
      refine ⟨hne, ?_⟩
      rw [run_background events g (Or.inr h0)]
      apply backgroundColors_getElem?_ne _ hg hne
      rw [hidx]; omega

theorem acceptedStarts_eightStarts : acceptedStarts initial eightStarts = 8 := by
  decide

/-- Witness for C5: from the constructed object, start the game and make eight
gesture-starts. -/
theorem background_index_has_period_eight_witness :
    initial.currentBgIndex < 8 ∧ acceptedStarts initial eightStarts = 8 ∧
    (run initial eightStarts).currentBgIndex = initial.currentBgIndex ∧
    (run initial eightStarts).background = backgroundColors[initial.currentBgIndex]? :=
  ⟨by decide, acceptedStarts_eightStarts,
    (background_index_has_period_eight.2.1 initial eightStarts (by decide)).2.1
      acceptedStarts_eightStarts⟩

end SensorySwipe
